import Mathlib

/-!
Verification of the Good Package Repo specification.

Shallow embedding of the repository's code and, where the backend engine is
absent from the source tree, models built from the specification, together
with theorems settling the frozen claims about them.
-/

set_option maxHeartbeats 1000000

namespace GoodRepo

/-! ## Frontend: `getApiUrl` (src/frontend/src/utils/api.js and src/unnamed/part_000)

The JavaScript reads `process.env.NEXT_PUBLIC_API_URL` (an `Option String`;
JavaScript truthiness makes the empty string fall through) and
`window.location` (absent during server-side rendering). -/

/-- The `{protocol, hostname, port}` triple destructured from `window.location`. -/
structure JsLocation where
  protocol : String
  hostname : String
  port : String
deriving DecidableEq

/-- JavaScript truthiness of a possibly-undefined string:
`undefined` and `""` are falsy, every other string is truthy. -/
def jsTruthy : Option String → Bool
  | none => false
  | some s => !(s == "")

/-- Embedding of `getApiUrl` from `src/frontend/src/utils/api.js` (lines 28-59). -/
def getApiUrl (env : Option String) (window : Option JsLocation) : String :=
  if jsTruthy env then
    env.getD ""
  else
    match window with
    | some loc =>
      if loc.hostname != "localhost" && loc.hostname != "127.0.0.1" then
        if loc.port != "" && loc.port != "80" && loc.port != "443" then
          loc.protocol ++ "//" ++ loc.hostname ++ ":5000"
        else
          loc.protocol ++ "//" ++ loc.hostname
      else
        "http://localhost:5000"
    | none => "http://localhost:5000"

/-- Embedding of the second copy of `getApiUrl`, from `src/unnamed/part_000`
(lines 18-48); its control flow is transcribed independently. -/
def getApiUrlCopy (env : Option String) (window : Option JsLocation) : String :=
  if jsTruthy env then
    env.getD ""
  else
    match window with
    | some loc =>
      if loc.hostname != "localhost" && loc.hostname != "127.0.0.1" then
        if loc.port != "" && loc.port != "80" && loc.port != "443" then
          loc.protocol ++ "//" ++ loc.hostname ++ ":5000"
        else
          loc.protocol ++ "//" ++ loc.hostname
      else
        "http://localhost:5000"
    | none => "http://localhost:5000"

/-! ## Frontend: Next.js rewrites (src/unnamed/part_002) -/

/-- One Next.js rewrite rule: `{source, destination}`. -/
structure Rewrite where
  source : String
  destination : String
deriving DecidableEq

/-- Embedding of `process.env.BACKEND_URL || 'http://backend:5000'` from
`src/unnamed/part_002` line 6 (JavaScript `||` uses truthiness). -/
def backendUrl (env : Option String) : String :=
  if jsTruthy env then env.getD "" else "http://backend:5000"

/-- Embedding of `nextConfig.rewrites` from `src/unnamed/part_002` (lines 4-22). -/
def nextRewrites (env : Option String) : List Rewrite :=
  [⟨"/api/:path*", backendUrl env ++ "/:path*"⟩,
   ⟨"/auth/:path*", backendUrl env ++ "/auth/:path*"⟩,
   ⟨"/v1/:path*", backendUrl env ++ "/v1/:path*"⟩]

/-- The backend-URL selection as the claim words it: the environment variable
whenever it is set, the default only when it is unset. -/
def claimedBackendUrl (env : Option String) : String :=
  match env with
  | some s => s
  | none => "http://backend:5000"

/-! ## Frontend: AdminPage mount effect (src/unnamed/part_001, lines 14-34) -/

/-- Result of `JSON.parse(userData)` as the component consumes it:
only the `scopes` property is read, via `parsedUser.scopes?.includes('admin')`,
so a missing / non-array `scopes` is an `Option`. -/
structure StoredUser where
  scopes : Option (List String)

/-- The outcome of the mount effect: a redirect, the config fetch,
or a thrown exception from `JSON.parse`. -/
inductive AdminAction
  | redirectLogin
  | redirectHome
  | fetchConfig
  | jsError
deriving DecidableEq

/-- Embedding of the `useEffect` body of `AdminPage` (`src/unnamed/part_001`
lines 14-34). `token` and `userData` are `localStorage.getItem` results
(`null` or a string); `parse` stands for `JSON.parse`, with `none` meaning
the parse throws (or yields a value on which `.scopes` access throws). -/
def adminMount (token userData : Option String) (parse : String → Option StoredUser) : AdminAction :=
  if !(jsTruthy token) || !(jsTruthy userData) then
    .redirectLogin
  else
    match parse (userData.getD "") with
    | none => .jsError
    | some u =>
      if !((u.scopes.getD []).contains "admin") then
        .redirectHome
      else
        .fetchConfig

/-! ## Error taxonomy (spec §7)

Modelled from the spec: the backend engine is not in the source tree; the
error taxonomy and its HTTP status mapping follow §7 of the specification. -/

/-- Modelled from the spec: the error taxonomy of §7. -/
inductive ErrKind
  | validation
  | authUnauthenticated
  | authForbidden
  | conflict
  | notFound
  | sizeLimit
  | storage
  | timeout
deriving DecidableEq

/-- Modelled from the spec: the HTTP status each error kind maps to (§7). -/
def httpStatusOf : ErrKind → Nat
  | .validation => 400
  | .authUnauthenticated => 401
  | .authForbidden => 403
  | .conflict => 409
  | .notFound => 404
  | .sizeLimit => 413
  | .storage => 500
  | .timeout => 504

/-! ## KV store with CAS put (spec §2, §4.1, §5)

Modelled from the spec: the KV Store implementation is not in the source
tree. A store is an association list from string keys to string values
(most recent binding first); `kv-put` in non-overwrite mode is a single
conditional write that succeeds only if the key is currently absent. -/

/-- A KV store: association list, most recent binding first. -/
abbrev KV := List (String × String)

/-- Lookup of a key: the most recent binding. -/
def kvLookup : KV → String → Option String
  | [], _ => none
  | (k, v) :: rest, key => if k = key then some v else kvLookup rest key

/-- Outcome of a `kv-put` step: the new store on success, or a
`ConflictError` leaving the store as it was. -/
inductive KvPutResult
  | ok (kv : KV)
  | conflict (kv : KV)
deriving DecidableEq

/-- Modelled from the spec: `kv-put` for artifact metadata (§4.1). With
`allow_overwrite_artifacts` disabled it is CAS: it succeeds only if the key
is currently absent, otherwise it fails with `ConflictError` and leaves the
store unchanged; with the flag enabled it writes unconditionally. The whole
check-and-write is one atomic step (§5). -/
def kvPut (allowOverwrite : Bool) (kv : KV) (key v : String) : KvPutResult :=
  if allowOverwrite then
    .ok ((key, v) :: kv)
  else
    match kvLookup kv key with
    | some _ => .conflict kv
    | none => .ok ((key, v) :: kv)

/-- The store state an operation leaves behind, whichever way it ended. -/
def kvAfter : KvPutResult → KV
  | .ok kv => kv
  | .conflict kv => kv

/-- Modelled from the spec: two concurrent non-overwrite `kv-put` calls to
the same key (§5, §8). Each put is a single atomic conditional write, so a
concurrent execution is one of the two interleavings; `firstIsOne` selects
which caller's write is scheduled first. Returns (caller 1's result,
caller 2's result, final store). -/
def kvTwoPuts (firstIsOne : Bool) (kv : KV) (key v1 v2 : String) :
    KvPutResult × KvPutResult × KV :=
  if firstIsOne then
    let r1 := kvPut false kv key v1
    let r2 := kvPut false (kvAfter r1) key v2
    (r1, r2, kvAfter r2)
  else
    let r2 := kvPut false kv key v2
    let r1 := kvPut false (kvAfter r2) key v1
    (r1, r2, kvAfter r1)

/-! ## Auth policy evaluator (spec §2, §3, §4.3)

Modelled from the spec: the Auth Policy Evaluator is not in the source tree.
A policy carries an effect (allow or deny), `conditions` deciding whether it
matches an action/resource, and `requirements` evaluated against the
principal; conditions and requirements are modelled as boolean predicates. -/

/-- A principal: its name and granted scopes (§3). -/
structure Principal where
  name : String
  scopes : List String
deriving DecidableEq

/-- A resource context: attributes of the resource under access. -/
abbrev ResourceCtx := List (String × String)

/-- Policy effect (§3). -/
inductive Effect
  | allow
  | deny
deriving DecidableEq

/-- An authorization decision (§4.3). -/
inductive Decision
  | allowed
  | denied
deriving DecidableEq

/-- Modelled from the spec: an Auth Policy (§3) — name, effect, conditions
(when the policy applies to an action/resource) and requirements (what must
hold of the principal/resource for the policy to grant or deny). -/
structure Policy where
  name : String
  effect : Effect
  conditions : String → ResourceCtx → Bool
  requirements : Principal → ResourceCtx → Bool

/-- A policy matches and its requirements hold: it "evaluates to" its effect. -/
def policyApplies (p : Policy) (pr : Principal) (a : String) (rc : ResourceCtx) : Bool :=
  p.conditions a rc && p.requirements pr rc

/-- Modelled from the spec: `decide(principal, action, resourceContext)`
(§4.3) — collect the policies whose conditions match, evaluate each
matching policy's requirements, and apply deny-overrides: any applicable
deny wins; otherwise allow only if some applicable policy allows; absent
any, deny (default-closed). -/
def decideAuth (ps : List Policy) (pr : Principal) (a : String) (rc : ResourceCtx) : Decision :=
  let applicable := ps.filter (fun p => policyApplies p pr a rc)
  if applicable.any (fun p => p.effect == .deny) then
    .denied
  else if applicable.any (fun p => p.effect == .allow) then
    .allowed
  else
    .denied

/-! ## Content-addressable blob store (spec §2, §3, §4.2)

Modelled from the spec: the Blob Store implementation is not in the source
tree. Bytes are lists of naturals; the cryptographic content hash is
idealized as a collision-free fingerprint of the bytes (a length-prefixed
copy, which is injective — the property the spec relies on). The storage
path is derived from the digest and the addressing mode: flat (one
component holding the full digest) or sharded (a prefix of the digest
becomes a directory level). -/

/-- Byte content of a blob. -/
abbrev Bytes := List Nat

/-- Modelled from the spec: the content digest of §4.2, idealized as an
injective fingerprint of the exact byte content. -/
def contentDigest (bs : Bytes) : List Nat :=
  bs.length :: bs

/-- Addressing modes of §4.2: flat, or sharded with an `n`-byte prefix
becoming a directory level. -/
inductive Addressing
  | flat
  | sharded (n : Nat)
deriving DecidableEq

/-- Blob store configuration (§3): root, addressing mode, size limit. -/
structure BlobConfig where
  root : String
  addressing : Addressing
  maxBlobBytes : Nat
deriving DecidableEq

/-- A storage path: the store root plus the digest-derived components. -/
structure BlobPath where
  root : String
  comps : List (List Nat)
deriving DecidableEq

/-- Modelled from the spec: `root + template(digest, addressing_mode)`
(§4.2) — the storage path is a deterministic function of the content hash
and the store's addressing mode. -/
def blobPathFor (cfg : BlobConfig) (d : List Nat) : BlobPath :=
  match cfg.addressing with
  | .flat => ⟨cfg.root, [d]⟩
  | .sharded n => ⟨cfg.root, [d.take n, d.drop n]⟩

/-- Blob store contents: association list from storage paths to bytes. -/
abbrev BlobStore := List (BlobPath × Bytes)

/-- Lookup of a path in a blob store. -/
def blobLookup : BlobStore → BlobPath → Option Bytes
  | [], _ => none
  | (p, b) :: rest, q => if p = q then some b else blobLookup rest q

/-- Outcome of a blob `put`: the digest, whether bytes were written (false
when dedup made it a no-op), and the resulting store; or a size-limit
failure with no partial write. -/
inductive BlobPutResult
  | ok (digest : List Nat) (wrote : Bool) (store : BlobStore)
  | sizeExceeded (store : BlobStore)
deriving DecidableEq

/-- Modelled from the spec: `put(bytes) -> digest` (§4.2). Size limits are
enforced before any bytes are persisted; identical bytes are detected via
`exists` before writing (a no-op the second time); otherwise the blob is
stored at the address derived from the digest and the addressing mode. -/
def blobPut (cfg : BlobConfig) (store : BlobStore) (bs : Bytes) : BlobPutResult :=
  if cfg.maxBlobBytes < bs.length then
    .sizeExceeded store
  else
    let d := contentDigest bs
    let p := blobPathFor cfg d
    match blobLookup store p with
    | some _ => .ok d false store
    | none => .ok d true ((p, bs) :: store)

/-- Modelled from the spec: `get(digest) -> bytes | NotFound` (§4.2). -/
def blobGet (cfg : BlobConfig) (store : BlobStore) (d : List Nat) : Option Bytes :=
  blobLookup store (blobPathFor cfg d)

/-- Modelled from the spec: `exists(digest) -> bool` (§4.2). -/
def blobExists (cfg : BlobConfig) (store : BlobStore) (d : List Nat) : Bool :=
  (blobLookup store (blobPathFor cfg d)).isSome

/-- Stores reachable by `put` alone: every entry sits at the path derived
from the digest of the bytes it holds. -/
def BlobWF (cfg : BlobConfig) (store : BlobStore) : Prop :=
  ∀ p b, blobLookup store p = some b → p = blobPathFor cfg (contentDigest b)

/-! ## Semantic versions and the "latest" pointer (spec §4.1, §8)

Modelled from the spec: the `index-upsert` step is not in the source tree.
A version string is `major.minor.patch` with an optional pre-release tag
after the first dash; ordering is numeric on `major.minor.patch` and a
pre-release sorts below its corresponding release (pre-release tags of the
same base version are compared bytewise, a model choice the spec leaves
open). Parsing is written over character lists so every function reduces
in the kernel. -/

/-- A parsed semantic version. -/
structure SemVer where
  major : Nat
  minor : Nat
  patch : Nat
  pre : Option (List Char)
deriving DecidableEq

/-- Split a character list at every occurrence of `sep`. -/
def splitOnChar (sep : Char) : List Char → List (List Char)
  | [] => [[]]
  | c :: rest =>
    match splitOnChar sep rest with
    | [] => if c = sep then [[], [c]] else [[c]]
    | h :: t => if c = sep then [] :: h :: t else (c :: h) :: t

/-- Split at the first occurrence of `sep`: the part before it and,
when `sep` occurs, the part after it. -/
def breakAtChar (sep : Char) : List Char → List Char × Option (List Char)
  | [] => ([], none)
  | c :: rest =>
    if c = sep then ([], some rest)
    else
      let r := breakAtChar sep rest
      (c :: r.1, r.2)

/-- The numeric value of a decimal digit character. -/
def digitVal (c : Char) : Option Nat :=
  if c.isDigit then some (c.toNat - 48) else none

/-- Parse a non-empty all-digit character list as a natural number. -/
def parseNatDigits (l : List Char) : Option Nat :=
  match l with
  | [] => none
  | _ =>
    l.foldl
      (fun acc c =>
        match acc, digitVal c with
        | some n, some d => some (n * 10 + d)
        | _, _ => none)
      (some 0)

/-- Modelled from the spec: parse a version string `major.minor.patch` with
an optional `-pre` suffix (everything after the first dash). -/
def parseSemVer (s : String) : Option SemVer :=
  let br := breakAtChar (Char.ofNat 45) s.toList
  match (splitOnChar (Char.ofNat 46) br.1).map parseNatDigits with
  | [some a, some b, some c] => some ⟨a, b, c, br.2⟩
  | _ => none

/-- Bytewise (code-point) strict order on character lists, used only to
break ties between two pre-release tags of the same base version. -/
def charListLt : List Char → List Char → Bool
  | _, [] => false
  | [], _ :: _ => true
  | a :: as, b :: bs =>
    if a.toNat < b.toNat then true
    else if b.toNat < a.toNat then false
    else charListLt as bs

/-- Pre-release tag order: a pre-release sorts below no tag (the
corresponding release); a release never sorts below a pre-release. -/
def preLt : Option (List Char) → Option (List Char) → Bool
  | some _, none => true
  | some s, some t => charListLt s t
  | _, _ => false

/-- Modelled from the spec: strict semantic-version order (§4.1) — numeric
precedence on major, minor, patch; at an equal base version a pre-release
sorts below the release. -/
def semverLt (a b : SemVer) : Bool :=
  decide (a.major < b.major) ||
  (a.major == b.major &&
    (decide (a.minor < b.minor) ||
      (a.minor == b.minor &&
        (decide (a.patch < b.patch) ||
          (a.patch == b.patch && preLt a.pre b.pre)))))

/-- The versions eligible for "latest" resolution: the parseable ones and,
when `includePre` is disabled, only those without a pre-release tag.
Whether pre-releases are eligible is the explicit configuration of §8. -/
def eligibleSemVers (includePre : Bool) (vs : List String) : List (String × SemVer) :=
  vs.filterMap (fun s =>
    match parseSemVer s with
    | none => none
    | some sv => if !includePre && sv.pre.isSome then none else some (s, sv))

/-- Keep the greater of the accumulator and the next version. -/
def pickMaxSemVer (acc : Option (String × SemVer)) (p : String × SemVer) :
    Option (String × SemVer) :=
  match acc with
  | none => some p
  | some q => if semverLt q.2 p.2 then some p else some q

/-- Modelled from the spec: the "latest" pointer maintained by
`index-upsert` (§4.1) — the maximum eligible version under semantic-version
order. -/
def latestVersion (includePre : Bool) (vs : List String) : Option String :=
  ((eligibleSemVers includePre vs).foldl pickMaxSemVer none).map Prod.fst

/-! ## Entity/Field normalizer (spec §3, §4.4)

Modelled from the spec: the Normalizer is not in the source tree. Payloads
are association lists from field names to string values; regex constraint
patterns are modelled as boolean string predicates; the normalization
operations named by the spec (`trim`, `lowercase`) are modelled with the
corresponding string functions. -/

/-- A request payload: field name to value, most recent binding first. -/
abbrev Payload := List (String × String)

/-- Lookup of a field in a payload. -/
def payloadGet : Payload → String → Option String
  | [], _ => none
  | (k, v) :: rest, key => if k = key then some v else payloadGet rest key

/-- Set a field in a payload (new binding shadows the old one). -/
def payloadSet (p : Payload) (key v : String) : Payload :=
  (key, v) :: p

/-- Normalization operations (§3: "e.g., lowercase, trim"). -/
inductive NormOp
  | trim
  | lowercase
deriving DecidableEq

/-- ASCII space, the whitespace the modelled `trim` removes. -/
def isSpaceChar (c : Char) : Bool :=
  c.toNat == 32

/-- Fold an ASCII letter to lower case; other characters are unchanged. -/
def lowerChar (c : Char) : Char :=
  if 65 ≤ c.toNat ∧ c.toNat ≤ 90 then Char.ofNat (c.toNat + 32) else c

/-- Apply one normalization operation to a field value, modelled over the
character list: `trim` drops leading and trailing spaces, `lowercase`
folds ASCII letters to lower case. -/
def applyNormOp : NormOp → String → String
  | .trim, s =>
    String.mk (((s.toList.dropWhile isSpaceChar).reverse.dropWhile isSpaceChar).reverse)
  | .lowercase, s => String.mk (s.toList.map lowerChar)

/-- A field of an entity schema (§3). -/
structure EntityField where
  name : String
  optional : Bool
  normalizations : List NormOp

/-- A constraint of an entity schema (§3): target field, pattern
(modelled as a predicate), and the `when_present` flag. -/
structure Constraint where
  field : String
  pattern : String → Bool
  whenPresent : Bool

/-- An entity schema (§3): ordered fields and ordered constraints. -/
structure Entity where
  name : String
  fields : List EntityField
  constraints : List Constraint

/-- A validation error: the offending field and a reason (§4.4). -/
structure ValidationError where
  field : String
  reason : String
deriving DecidableEq

/-- Apply one field's normalization operations, in declared order, to its
value when the field is present; an absent field is left absent. -/
def normalizeField (p : Payload) (f : EntityField) : Payload :=
  match payloadGet p f.name with
  | none => p
  | some v => payloadSet p f.name (f.normalizations.foldl (fun s op => applyNormOp op s) v)

/-- Apply every field's normalizations, fields in declared order. -/
def normalizeFields (fs : List EntityField) (p : Payload) : Payload :=
  fs.foldl normalizeField p

/-- Whether one constraint is satisfied by a payload (§4.4): with
`when_present` the constraint is checked only if the field is present;
without it the field must be present and match. -/
def constraintOk (c : Constraint) (p : Payload) : Bool :=
  match payloadGet p c.field with
  | some v => c.pattern v
  | none => c.whenPresent

/-- The error a failed constraint reports. -/
def constraintError (c : Constraint) (p : Payload) : ValidationError :=
  match payloadGet p c.field with
  | some _ => ⟨c.field, "pattern mismatch"⟩
  | none => ⟨c.field, "required field missing"⟩

/-- Check constraints in declared order, reporting the first violation. -/
def checkConstraints (cs : List Constraint) (p : Payload) : Option ValidationError :=
  match cs with
  | [] => none
  | c :: rest =>
    if constraintOk c p then checkConstraints rest p
    else some (constraintError c p)

/-- Modelled from the spec: `normalize(entity, rawPayload)` (§4.4) —
apply each field's normalization operations in declared order, then check
constraints, failing fast with the first violation. -/
def normalizeEntity (e : Entity) (p : Payload) : Except ValidationError Payload :=
  let np := normalizeFields e.fields p
  match checkConstraints e.constraints np with
  | some err => .error err
  | none => .ok np

/-! ## Supporting lemmas -/

/-- A string of positive length is not the empty string. -/
theorem string_ne_empty_of_length_pos {s : String} (h : 0 < s.length) : s ≠ "" := by
  intro he
  rw [he] at h
  simp at h

/-- Concatenations containing the literal `"//"` are nonempty. -/
theorem append_slashes_ne_empty (a b : String) : a ++ "//" ++ b ≠ "" := by
  apply string_ne_empty_of_length_pos
  simp only [String.length_append]
  have h2 : 0 < "//".length := by decide
  omega

/-- Concatenations containing the literals `"//"` and `":5000"` are nonempty. -/
theorem append_port_ne_empty (a b : String) : a ++ "//" ++ b ++ ":5000" ≠ "" := by
  apply string_ne_empty_of_length_pos
  simp only [String.length_append]
  have h2 : 0 < "//".length := by decide
  omega

/-- A truthy environment value is a nonempty string. -/
theorem jsTruthy_iff (env : Option String) :
    jsTruthy env = true ↔ ∃ s, env = some s ∧ s ≠ "" := by
  cases env with
  | none => simp [jsTruthy]
  | some s => simp [jsTruthy]

/-! ## Claims -/

/-- C8: `getApiUrl` is total and deterministic in the environment and window
location: a non-empty `NEXT_PUBLIC_API_URL` is returned unchanged; otherwise
with no window or a localhost hostname it returns `http://localhost:5000`;
otherwise it appends `:5000` exactly when the port is non-empty and neither
`80` nor `443`; it always returns a non-empty string, and the two copies of
the function in the repository agree on every input. -/
theorem c8_getApiUrl_spec (env : Option String) (w : Option JsLocation) :
    (∀ s, env = some s → s ≠ "" → getApiUrl env w = s) ∧
    (jsTruthy env = false → (w = none ∨
        ∃ loc, w = some loc ∧ (loc.hostname = "localhost" ∨ loc.hostname = "127.0.0.1")) →
      getApiUrl env w = "http://localhost:5000") ∧
    (∀ loc, jsTruthy env = false → w = some loc →
        loc.hostname ≠ "localhost" → loc.hostname ≠ "127.0.0.1" →
      getApiUrl env w =
        if loc.port ≠ "" ∧ loc.port ≠ "80" ∧ loc.port ≠ "443" then
          loc.protocol ++ "//" ++ loc.hostname ++ ":5000"
        else
          loc.protocol ++ "//" ++ loc.hostname) ∧
    getApiUrl env w = getApiUrlCopy env w ∧
    getApiUrl env w ≠ "" := by
  refine ⟨?_, ?_, ?_, rfl, ?_⟩
  · intro s hs hne
    subst hs
    simp [getApiUrl, jsTruthy, hne]
  · intro hf hw
    rcases hw with hw | ⟨loc, hw, hloc⟩
    · subst hw
      simp [getApiUrl, hf]
    · subst hw
      rcases hloc with h | h <;>
        simp [getApiUrl, hf, h]
  · intro loc hf hw h1 h2
    subst hw
    simp only [getApiUrl, hf, Bool.false_eq_true, if_false]
    rw [if_pos (by simp [h1, h2])]
    by_cases hc : loc.port ≠ "" ∧ loc.port ≠ "80" ∧ loc.port ≠ "443"
    · rw [if_pos (by simp [hc.1, hc.2.1, hc.2.2]), if_pos hc]
    · rw [if_neg ?_, if_neg hc]
      simp only [ne_eq, not_and, not_not] at hc
      by_cases he : loc.port = ""
      · simp [he]
      · by_cases h80 : loc.port = "80"
        · simp [h80]
        · simp [hc he h80]
  · by_cases ht : jsTruthy env = true
    · obtain ⟨s, hs, hne⟩ := (jsTruthy_iff env).mp ht
      subst hs
      simp [getApiUrl, jsTruthy] at ht ⊢
      simp [ht, hne]
    · rw [Bool.not_eq_true] at ht
      cases w with
      | none => simp [getApiUrl, ht]
      | some loc =>
        simp only [getApiUrl, ht, Bool.false_eq_true, if_false]
        by_cases hh : (loc.hostname != "localhost" && loc.hostname != "127.0.0.1") = true
        · rw [if_pos hh]
          by_cases hp : (loc.port != "" && loc.port != "80" && loc.port != "443") = true
          · rw [if_pos hp]
            exact append_port_ne_empty _ _
          · rw [if_neg hp]
            exact append_slashes_ne_empty _ _
        · rw [if_neg hh]
          decide

/-- Witness for C8 at concrete inputs, exercising each hypothesis. -/
theorem c8_witness :
    getApiUrl (some "https://api.example.com") none = "https://api.example.com" ∧
    getApiUrl none (some ⟨"https:", "example.com", "3000"⟩) = "https://example.com:5000" := by
  constructor
  · exact (c8_getApiUrl_spec (some "https://api.example.com") none).1 _ rfl (by decide)
  · have h := (c8_getApiUrl_spec none (some ⟨"https:", "example.com", "3000"⟩)).2.2.1
      ⟨"https:", "example.com", "3000"⟩ rfl rfl (by decide) (by decide)
    rw [h]
    decide

/-- C9 counterexample: with `BACKEND_URL` present but equal to the empty
string, the configuration falls back to the default backend URL, so the
backend URL is not the value of the variable whenever it is set. -/
theorem c9_counterexample :
    backendUrl (some "") = "http://backend:5000" ∧
    claimedBackendUrl (some "") = "" ∧
    backendUrl (some "") ≠ claimedBackendUrl (some "") := by
  refine ⟨rfl, rfl, ?_⟩
  decide

/-- C9 (amended): the rewrites configuration always produces exactly three
rules — `/api/:path*` forwarded with the `/api` prefix removed, and
`/auth/:path*` and `/v1/:path*` forwarded with their prefixes preserved —
against the backend URL, which is `BACKEND_URL` when that variable is set
to a non-empty string and `http://backend:5000` otherwise. -/
theorem c9_rewrites_spec (env : Option String) :
    (nextRewrites env).length = 3 ∧
    (nextRewrites env).map Rewrite.source = ["/api/:path*", "/auth/:path*", "/v1/:path*"] ∧
    (nextRewrites env).map Rewrite.destination =
      [backendUrl env ++ "/:path*",
       backendUrl env ++ "/auth/:path*",
       backendUrl env ++ "/v1/:path*"] ∧
    (∀ s, env = some s → s ≠ "" → backendUrl env = s) ∧
    ((env = none ∨ env = some "") → backendUrl env = "http://backend:5000") := by
  refine ⟨rfl, rfl, rfl, ?_, ?_⟩
  · intro s hs hne
    subst hs
    simp [backendUrl, jsTruthy, hne]
  · intro h
    rcases h with h | h <;> subst h <;> rfl

/-- Witness for C9 at concrete inputs, exercising each hypothesis. -/
theorem c9_witness :
    backendUrl (some "https://backend.example.com") = "https://backend.example.com" ∧
    backendUrl none = "http://backend:5000" := by
  constructor
  · exact (c9_rewrites_spec (some "https://backend.example.com")).2.2.2.1 _ rfl (by decide)
  · exact (c9_rewrites_spec none).2.2.2.2 (Or.inl rfl)

/-- C10 counterexample: with a present-but-empty `token` entry and a stored
user whose scopes lack `admin`, the mount effect redirects to `/login`,
not to `/` as the claim requires of every stored user without the
`admin` scope. -/
theorem c10_counterexample :
    adminMount (some "") (some "u") (fun _ => some ⟨some []⟩) = .redirectLogin ∧
    AdminAction.redirectLogin ≠ AdminAction.redirectHome := by
  refine ⟨rfl, ?_⟩
  decide

/-- C10 (amended): on mount, `AdminPage` redirects to `/login` whenever the
`token` or `user` localStorage entry is missing or empty; otherwise, when
the stored user JSON parses, it redirects to `/` when the parsed scopes do
not include `admin` and issues the admin configuration fetch when they do —
so for every localStorage state, admin content is requested only for a
stored user whose scopes contain `admin`. -/
theorem c10_adminMount_spec (token userData : Option String)
    (parse : String → Option StoredUser) :
    ((jsTruthy token = false ∨ jsTruthy userData = false) →
      adminMount token userData parse = .redirectLogin) ∧
    (jsTruthy token = true → jsTruthy userData = true →
      ∀ u, parse (userData.getD "") = some u →
        ((u.scopes.getD []).contains "admin" = false →
          adminMount token userData parse = .redirectHome) ∧
        ((u.scopes.getD []).contains "admin" = true →
          adminMount token userData parse = .fetchConfig)) ∧
    (adminMount token userData parse = .fetchConfig →
      ∃ u, parse (userData.getD "") = some u ∧
        (u.scopes.getD []).contains "admin" = true) := by
  refine ⟨?_, ?_, ?_⟩
  · intro h
    rcases h with h | h <;> simp [adminMount, h]
  · intro ht hu u hp
    constructor <;> intro hs <;> simp at hs <;> simp [adminMount, ht, hu, hp, hs]
  · intro hf
    unfold adminMount at hf
    by_cases hg : (!(jsTruthy token) || !(jsTruthy userData)) = true
    · rw [if_pos hg] at hf
      cases hf
    · rw [if_neg hg] at hf
      cases hp : parse (userData.getD "") with
      | none =>
        rw [hp] at hf
        simp at hf
      | some u =>
        rw [hp] at hf
        refine ⟨u, rfl, ?_⟩
        by_cases hs : "admin" ∈ u.scopes.getD []
        · simpa using hs
        · exfalso
          simp [hs] at hf

/-- Witness for C10 at concrete inputs, exercising each hypothesis. -/
theorem c10_witness :
    adminMount (some "t") (some "u") (fun _ => some ⟨some ["admin"]⟩) = .fetchConfig ∧
    adminMount none (some "u") (fun _ => some ⟨some ["admin"]⟩) = .redirectLogin ∧
    adminMount (some "t") (some "u") (fun _ => some ⟨some []⟩) = .redirectHome := by
  refine ⟨?_, ?_, ?_⟩
  · exact ((c10_adminMount_spec (some "t") (some "u")
      (fun _ => some ⟨some ["admin"]⟩)).2.1 rfl rfl ⟨some ["admin"]⟩ rfl).2 (by decide)
  · exact (c10_adminMount_spec none (some "u")
      (fun _ => some ⟨some ["admin"]⟩)).1 (Or.inl rfl)
  · exact ((c10_adminMount_spec (some "t") (some "u")
      (fun _ => some ⟨some []⟩)).2.1 rfl rfl ⟨some []⟩ rfl).1 (by decide)

/-- C1: a non-overwrite `kv-put` on an artifact-metadata key succeeds
exactly when the key is absent; on a present key it fails with
`ConflictError`, the stored value is unchanged, and the pipeline responds
409; with `allow_overwrite_artifacts` enabled the put succeeds
unconditionally. -/
theorem c1_kvPut_cas (kv : KV) (key v : String) :
    ((∃ kv2, kvPut false kv key v = .ok kv2) ↔ kvLookup kv key = none) ∧
    (∀ w, kvLookup kv key = some w →
      kvPut false kv key v = .conflict kv ∧
      kvLookup (kvAfter (kvPut false kv key v)) key = some w ∧
      httpStatusOf .conflict = 409) ∧
    (∃ kv2, kvPut true kv key v = .ok kv2 ∧ kvLookup kv2 key = some v) := by
  refine ⟨?_, ?_, ?_⟩
  · cases hl : kvLookup kv key with
    | none => simp [kvPut, hl]
    | some w => simp [kvPut, hl]
  · intro w hw
    refine ⟨by simp [kvPut, hw], ?_, rfl⟩
    simp [kvPut, hw, kvAfter]
  · exact ⟨(key, v) :: kv, rfl, by simp [kvLookup]⟩

/-- Witness for C1 at concrete inputs, exercising each hypothesis. -/
theorem c1_witness :
    kvPut false [("pkg/foo/1.0.0", "m0")] "pkg/foo/1.0.0" "m1" =
      .conflict [("pkg/foo/1.0.0", "m0")] ∧
    httpStatusOf .conflict = 409 ∧
    (∃ kv2, kvPut false [] "pkg/foo/1.0.0" "m1" = .ok kv2) := by
  have h := c1_kvPut_cas [("pkg/foo/1.0.0", "m0")] "pkg/foo/1.0.0" "m1"
  have h0 := c1_kvPut_cas [] "pkg/foo/1.0.0" "m1"
  exact ⟨(h.2.1 "m0" (by decide)).1, (h.2.1 "m0" (by decide)).2.2, h0.1.mpr (by decide)⟩

/-- C2 counterexample: when the key is already present before either
operation starts, both concurrent non-overwrite puts fail with
`ConflictError` and neither v1 nor v2 is persisted — so it is not the case
that for any key exactly one of the two values wins. -/
theorem c2_counterexample :
    kvTwoPuts true [("k", "v0")] "k" "v1" "v2" =
      (.conflict [("k", "v0")], .conflict [("k", "v0")], [("k", "v0")]) ∧
    kvTwoPuts false [("k", "v0")] "k" "v1" "v2" =
      (.conflict [("k", "v0")], .conflict [("k", "v0")], [("k", "v0")]) ∧
    kvLookup [("k", "v0")] "k" ≠ some "v1" ∧
    kvLookup [("k", "v0")] "k" ≠ some "v2" := by
  refine ⟨rfl, rfl, ?_, ?_⟩ <;> decide

/-- C2 (amended): for any key that is initially absent, two concurrent
non-overwrite `kv-put` operations (the two interleavings of atomic CAS
writes) persist exactly the value scheduled first; that caller succeeds and
the other observes `ConflictError` — never both, and (for an absent key)
never neither. -/
theorem c2_concurrent_cas (kv : KV) (key v1 v2 : String)
    (h : kvLookup kv key = none) :
    kvTwoPuts true kv key v1 v2 =
      (.ok ((key, v1) :: kv), .conflict ((key, v1) :: kv), (key, v1) :: kv) ∧
    kvTwoPuts false kv key v1 v2 =
      (.conflict ((key, v2) :: kv), .ok ((key, v2) :: kv), (key, v2) :: kv) ∧
    (∀ firstIsOne, kvLookup (kvTwoPuts firstIsOne kv key v1 v2).2.2 key =
      some (if firstIsOne then v1 else v2)) ∧
    (v1 ≠ v2 → ∀ firstIsOne,
      Xor' (kvLookup (kvTwoPuts firstIsOne kv key v1 v2).2.2 key = some v1)
           (kvLookup (kvTwoPuts firstIsOne kv key v1 v2).2.2 key = some v2)) := by
  have h1 : kvTwoPuts true kv key v1 v2 =
      (.ok ((key, v1) :: kv), .conflict ((key, v1) :: kv), (key, v1) :: kv) := by
    simp [kvTwoPuts, kvPut, h, kvAfter, kvLookup]
  have h2 : kvTwoPuts false kv key v1 v2 =
      (.conflict ((key, v2) :: kv), .ok ((key, v2) :: kv), (key, v2) :: kv) := by
    simp [kvTwoPuts, kvPut, h, kvAfter, kvLookup]
  refine ⟨h1, h2, ?_, ?_⟩
  · intro firstIsOne
    cases firstIsOne <;> simp [h1, h2, kvLookup]
  · intro hne firstIsOne
    cases firstIsOne <;> simp [h1, h2, kvLookup, Xor'] <;> simp [hne, Ne.symm hne]

/-- Witness for C2 (amended) at concrete inputs. -/
theorem c2_witness :
    kvTwoPuts true [] "pkg/foo/1.0.0" "m1" "m2" =
      (.ok [("pkg/foo/1.0.0", "m1")], .conflict [("pkg/foo/1.0.0", "m1")],
        [("pkg/foo/1.0.0", "m1")]) ∧
    kvLookup (kvTwoPuts false [] "pkg/foo/1.0.0" "m1" "m2").2.2 "pkg/foo/1.0.0" =
      some "m2" := by
  have h := c2_concurrent_cas [] "pkg/foo/1.0.0" "m1" "m2" (by decide)
  exact ⟨h.1, h.2.2.1 false⟩

/-- C3: the policy decision applies deny-overrides — any matching policy
that evaluates to deny forces Deny regardless of allows; otherwise the
result is Allow exactly when some matching policy evaluates to allow; and
with no match at all the decision is Deny (default-closed). In particular a
principal matching both an allow policy and a deny policy for the same
action is denied. -/
theorem c3_decideAuth_deny_overrides (ps : List Policy) (pr : Principal)
    (a : String) (rc : ResourceCtx) :
    ((∃ p ∈ ps, policyApplies p pr a rc = true ∧ p.effect = .deny) →
      decideAuth ps pr a rc = .denied) ∧
    ((∀ p ∈ ps, policyApplies p pr a rc = true → p.effect ≠ .deny) →
      (decideAuth ps pr a rc = .allowed ↔
        ∃ p ∈ ps, policyApplies p pr a rc = true ∧ p.effect = .allow)) ∧
    ((∀ p ∈ ps, policyApplies p pr a rc = false) →
      decideAuth ps pr a rc = .denied) := by
  refine ⟨?_, ?_, ?_⟩
  · rintro ⟨p, hp, happ, heff⟩
    have hany : (ps.filter (fun p => policyApplies p pr a rc)).any
        (fun p => p.effect == .deny) = true := by
      rw [List.any_eq_true]
      exact ⟨p, List.mem_filter.mpr ⟨hp, happ⟩, by simp [heff]⟩
    simp [decideAuth, hany]
  · intro hnden
    have hany : (ps.filter (fun p => policyApplies p pr a rc)).any
        (fun p => p.effect == .deny) = false := by
      rw [List.any_eq_false]
      rintro p hp
      obtain ⟨hmem, happ⟩ := List.mem_filter.mp hp
      simp only [beq_iff_eq]
      exact hnden p hmem happ
    constructor
    · intro hdec
      simp only [decideAuth, hany, Bool.false_eq_true, if_false] at hdec
      by_cases hall : (ps.filter (fun p => policyApplies p pr a rc)).any
          (fun p => p.effect == .allow) = true
      · obtain ⟨p, hp, heff⟩ := List.any_eq_true.mp hall
        obtain ⟨hmem, happ⟩ := List.mem_filter.mp hp
        exact ⟨p, hmem, happ, by simpa using heff⟩
      · rw [Bool.not_eq_true] at hall
        rw [hall] at hdec
        cases hdec
    · rintro ⟨p, hp, happ, heff⟩
      have hall : (ps.filter (fun p => policyApplies p pr a rc)).any
          (fun p => p.effect == .allow) = true := by
        rw [List.any_eq_true]
        exact ⟨p, List.mem_filter.mpr ⟨hp, happ⟩, by simp [heff]⟩
      simp [decideAuth, hany, hall]
  · intro hnone
    have hfil : ps.filter (fun p => policyApplies p pr a rc) = [] := by
      rw [List.filter_eq_nil_iff]
      intro p hp
      simp [hnone p hp]
    simp [decideAuth, hfil]

/-- Witness for C3: a principal matching both an allow policy and a deny
policy for the `read` action is denied; with no matching policy the
decision is also denied. -/
theorem c3_witness :
    decideAuth
      [⟨"allow-read", .allow, fun a _ => a == "read",
          fun pr _ => pr.scopes.contains "reader"⟩,
       ⟨"deny-read", .deny, fun a _ => a == "read",
          fun pr _ => pr.scopes.contains "reader"⟩]
      ⟨"alice", ["reader"]⟩ "read" [] = .denied ∧
    decideAuth
      [⟨"allow-read", .allow, fun a _ => a == "read",
          fun pr _ => pr.scopes.contains "reader"⟩]
      ⟨"bob", []⟩ "read" [] = .denied := by
  constructor
  · exact (c3_decideAuth_deny_overrides _ _ _ _).1
      ⟨⟨"deny-read", .deny, fun a _ => a == "read",
          fun pr _ => pr.scopes.contains "reader"⟩,
        by simp, by decide, rfl⟩
  · exact (c3_decideAuth_deny_overrides _ _ _ _).2.2
      (by intro p hp; simp at hp; subst hp; decide)

/-- The idealized content digest is collision-free. -/
theorem contentDigest_injective {b1 b2 : Bytes}
    (h : contentDigest b1 = contentDigest b2) : b1 = b2 := by
  simp [contentDigest] at h
  exact h.2

/-- For a fixed store configuration, distinct digests resolve to distinct
storage paths. -/
theorem blobPathFor_injective (cfg : BlobConfig) {d1 d2 : List Nat}
    (h : blobPathFor cfg d1 = blobPathFor cfg d2) : d1 = d2 := by
  cases hm : cfg.addressing with
  | flat =>
    simp [blobPathFor, hm] at h
    exact h
  | sharded n =>
    simp [blobPathFor, hm] at h
    calc d1 = d1.take n ++ d1.drop n := (List.take_append_drop n d1).symm
    _ = d2.take n ++ d2.drop n := by rw [h.1, h.2]
    _ = d2 := List.take_append_drop n d2

/-- The empty blob store is well-formed. -/
theorem blobWF_empty (cfg : BlobConfig) : BlobWF cfg [] := by
  intro p b h
  simp [blobLookup] at h

/-- `put` preserves well-formedness, so every store reachable by puts is
well-formed. -/
theorem blobPut_preserves_wf (cfg : BlobConfig) (store : BlobStore) (bs : Bytes)
    (hwf : BlobWF cfg store) :
    ∀ d w store2, blobPut cfg store bs = .ok d w store2 → BlobWF cfg store2 := by
  intro d w store2 hput
  by_cases hsz : cfg.maxBlobBytes < bs.length
  · simp [blobPut, hsz] at hput
  · cases hl : blobLookup store (blobPathFor cfg (contentDigest bs)) with
    | some b2 =>
      simp [blobPut, hsz, hl] at hput
      obtain ⟨hd, hw, hs⟩ := hput
      rw [← hs]
      exact hwf
    | none =>
      simp [blobPut, hsz, hl] at hput
      obtain ⟨hd, hw, hs⟩ := hput
      rw [← hs]
      intro p b hp
      unfold blobLookup at hp
      by_cases hpe : blobPathFor cfg (contentDigest bs) = p
      · rw [if_pos hpe] at hp
        cases hp
        exact hpe.symm
      · rw [if_neg hpe] at hp
        exact hwf p b hp

/-- C5: for every byte sequence within the configured size limit and every
store reachable by puts, `put(bytes)` followed by `get` of the returned
digest yields exactly the original bytes. -/
theorem c5_blob_roundtrip (cfg : BlobConfig) (store : BlobStore) (bs : Bytes)
    (hwf : BlobWF cfg store) (hsize : bs.length ≤ cfg.maxBlobBytes) :
    ∃ d w store2, blobPut cfg store bs = .ok d w store2 ∧
      d = contentDigest bs ∧
      blobGet cfg store2 d = some bs := by
  have hsz : ¬ cfg.maxBlobBytes < bs.length := by omega
  cases hl : blobLookup store (blobPathFor cfg (contentDigest bs)) with
  | some b2 =>
    refine ⟨contentDigest bs, false, store, ?_, rfl, ?_⟩
    · simp [blobPut, hsz, hl]
    · have hpe := hwf _ _ hl
      have hd : contentDigest bs = contentDigest b2 := blobPathFor_injective cfg hpe
      have hb : bs = b2 := contentDigest_injective hd
      rw [blobGet, hl, hb]
  | none =>
    refine ⟨contentDigest bs, true,
      (blobPathFor cfg (contentDigest bs), bs) :: store, ?_, rfl, ?_⟩
    · simp [blobPut, hsz, hl]
    · simp [blobGet, blobLookup]

/-- Witness for C5 at concrete inputs, exercising each hypothesis. -/
theorem c5_witness :
    ∃ d w store2,
      blobPut ⟨"/data", .sharded 1, 100⟩ [] [7, 8] = .ok d w store2 ∧
      d = contentDigest [7, 8] ∧
      blobGet ⟨"/data", .sharded 1, 100⟩ store2 d = some [7, 8] :=
  c5_blob_roundtrip ⟨"/data", .sharded 1, 100⟩ [] [7, 8]
    (blobWF_empty _) (by decide)

/-- C6: blob `put` is idempotent — a second put of identical bytes returns
the same digest, performs no write (a no-op detected via `exists`), leaves
the store unchanged, and both calls resolve to the identical storage path,
which depends only on the content hash, the store root and the addressing
mode. -/
theorem c6_blob_idempotent (cfg : BlobConfig) (store : BlobStore) (bs : Bytes)
    (hsize : bs.length ≤ cfg.maxBlobBytes) :
    ∃ d w store2, blobPut cfg store bs = .ok d w store2 ∧
      blobExists cfg store2 d = true ∧
      blobPut cfg store2 bs = .ok d false store2 ∧
      d = contentDigest bs ∧
      (∀ cfg2 : BlobConfig, cfg2.root = cfg.root → cfg2.addressing = cfg.addressing →
        blobPathFor cfg2 d = blobPathFor cfg d) := by
  have hsz : ¬ cfg.maxBlobBytes < bs.length := by omega
  have hdet : ∀ cfg2 : BlobConfig, cfg2.root = cfg.root →
      cfg2.addressing = cfg.addressing →
      blobPathFor cfg2 (contentDigest bs) = blobPathFor cfg (contentDigest bs) := by
    intro cfg2 hr ha
    unfold blobPathFor
    rw [ha, hr]
  cases hl : blobLookup store (blobPathFor cfg (contentDigest bs)) with
  | some b2 =>
    refine ⟨contentDigest bs, false, store, ?_, ?_, ?_, rfl, hdet⟩
    · simp [blobPut, hsz, hl]
    · simp [blobExists, hl]
    · simp [blobPut, hsz, hl]
  | none =>
    refine ⟨contentDigest bs, true,
      (blobPathFor cfg (contentDigest bs), bs) :: store, ?_, ?_, ?_, rfl, hdet⟩
    · simp [blobPut, hsz, hl]
    · simp [blobExists, blobLookup]
    · simp [blobPut, hsz, blobLookup]

/-- Witness for C6 at concrete inputs, exercising each hypothesis. -/
theorem c6_witness :
    ∃ d w store2,
      blobPut ⟨"/data", .flat, 100⟩ [] [7, 8] = .ok d w store2 ∧
      blobExists ⟨"/data", .flat, 100⟩ store2 d = true ∧
      blobPut ⟨"/data", .flat, 100⟩ store2 [7, 8] = .ok d false store2 :=
  match c6_blob_idempotent ⟨"/data", .flat, 100⟩ [] [7, 8] (by decide) with
  | ⟨d, w, store2, h1, h2, h3, _, _⟩ => ⟨d, w, store2, h1, h2, h3⟩

/-- `charListLt` is irreflexive. -/
theorem charListLt_irrefl (l : List Char) : charListLt l l = false := by
  induction l with
  | nil => rfl
  | cons c t ih => simp [charListLt, ih]

/-- `charListLt` is transitive. -/
theorem charListLt_trans (a : List Char) : ∀ b c,
    charListLt a b = true → charListLt b c = true → charListLt a c = true := by
  induction a with
  | nil =>
    intro b c h1 h2
    cases c with
    | nil =>
      cases b with
      | nil => exact h1
      | cons x xs => simp [charListLt] at h2
    | cons x xs => simp [charListLt]
  | cons a as ih =>
    intro b c h1 h2
    cases b with
    | nil => simp [charListLt] at h1
    | cons b bs =>
      cases c with
      | nil => simp [charListLt] at h2
      | cons c cs =>
        simp only [charListLt] at h1 h2 ⊢
        by_cases hab : a.toNat < b.toNat
        · by_cases hbc : b.toNat < c.toNat
          · rw [if_pos (by omega)]
          · rw [if_neg hbc] at h2
            by_cases hcb : c.toNat < b.toNat
            · rw [if_pos hcb] at h2
              cases h2
            · rw [if_neg hcb] at h2
              rw [if_pos (by omega)]
        · rw [if_neg hab] at h1
          by_cases hba : b.toNat < a.toNat
          · rw [if_pos hba] at h1
            cases h1
          · rw [if_neg hba] at h1
            by_cases hbc : b.toNat < c.toNat
            · rw [if_pos (by omega)]
            · rw [if_neg hbc] at h2
              by_cases hcb : c.toNat < b.toNat
              · rw [if_pos hcb] at h2
                cases h2
              · rw [if_neg hcb] at h2
                rw [if_neg (by omega), if_neg (by omega)]
                exact ih bs cs h1 h2

/-- `preLt` is irreflexive. -/
theorem preLt_irrefl (t : Option (List Char)) : preLt t t = false := by
  cases t with
  | none => rfl
  | some l => simp [preLt, charListLt_irrefl]

/-- `preLt` is transitive. -/
theorem preLt_trans (a b c : Option (List Char))
    (h1 : preLt a b = true) (h2 : preLt b c = true) : preLt a c = true := by
  cases a <;> cases b <;> cases c <;> simp_all [preLt]
  exact charListLt_trans _ _ _ h1 h2

/-- `semverLt` in propositional form. -/
theorem semverLt_iff (a b : SemVer) : semverLt a b = true ↔
    a.major < b.major ∨ (a.major = b.major ∧
      (a.minor < b.minor ∨ (a.minor = b.minor ∧
        (a.patch < b.patch ∨ (a.patch = b.patch ∧ preLt a.pre b.pre = true))))) := by
  simp [semverLt, Bool.or_eq_true, Bool.and_eq_true, decide_eq_true_iff]

/-- `semverLt` is irreflexive. -/
theorem semverLt_irrefl (a : SemVer) : semverLt a a = false := by
  rw [Bool.eq_false_iff]
  intro h
  rw [semverLt_iff] at h
  rcases h with h | ⟨_, h | ⟨_, h | ⟨_, h⟩⟩⟩ <;>
    first
      | omega
      | (rw [preLt_irrefl] at h; cases h)

/-- `semverLt` is transitive. -/
theorem semverLt_trans {a b c : SemVer}
    (h1 : semverLt a b = true) (h2 : semverLt b c = true) :
    semverLt a c = true := by
  rw [semverLt_iff] at h1 h2 ⊢
  rcases h1 with h1 | ⟨e1, h1 | ⟨e1m, h1 | ⟨e1p, h1⟩⟩⟩ <;>
    rcases h2 with h2 | ⟨e2, h2 | ⟨e2m, h2 | ⟨e2p, h2⟩⟩⟩ <;>
    first
      | (left; omega)
      | (right; exact ⟨by omega, Or.inl (by omega)⟩)
      | (right; exact ⟨by omega, Or.inr ⟨by omega, Or.inl (by omega)⟩⟩)
      | (right; exact ⟨by omega, Or.inr ⟨by omega, Or.inr ⟨by omega,
          preLt_trans _ _ _ h1 h2⟩⟩⟩)

/-- Folding `pickMaxSemVer` returns an element that no scanned element
exceeds under `semverLt`. -/
theorem foldl_pickMaxSemVer_spec (l : List (String × SemVer)) :
    ∀ (acc : Option (String × SemVer)) (r : String × SemVer),
      l.foldl pickMaxSemVer acc = some r →
      (∀ p ∈ l, semverLt r.2 p.2 = false) ∧
      (r ∈ l ∨ acc = some r) ∧
      (∀ q, acc = some q →
        semverLt r.2 q.2 = false ∧ (r = q ∨ semverLt q.2 r.2 = true)) := by
  induction l with
  | nil =>
    intro acc r h
    simp only [List.foldl_nil] at h
    refine ⟨by simp, Or.inr h, ?_⟩
    intro q hq
    rw [h] at hq
    cases hq
    exact ⟨semverLt_irrefl r.2, Or.inl rfl⟩
  | cons p t ih =>
    intro acc r h
    rw [List.foldl_cons] at h
    obtain ⟨ih1, ih2, ih3⟩ := ih (pickMaxSemVer acc p) r h
    cases acc with
    | none =>
      obtain ⟨hrp, hrq⟩ := ih3 p rfl
      refine ⟨?_, ?_, ?_⟩
      · intro x hx
        rcases List.mem_cons.mp hx with hx | hx
        · rw [hx]
          exact hrp
        · exact ih1 x hx
      · rcases ih2 with h2 | h2
        · exact Or.inl (List.mem_cons_of_mem p h2)
        · cases h2
          exact Or.inl (List.mem_cons_self p t)
      · intro q hq
        cases hq
    | some q =>
      by_cases hqp : semverLt q.2 p.2 = true
      · have hacc : pickMaxSemVer (some q) p = some p := by
          simp [pickMaxSemVer, hqp]
        rw [hacc] at ih2 ih3
        obtain ⟨hrp, hrq⟩ := ih3 p rfl
        refine ⟨?_, ?_, ?_⟩
        · intro x hx
          rcases List.mem_cons.mp hx with hx | hx
          · rw [hx]
            exact hrp
          · exact ih1 x hx
        · rcases ih2 with h2 | h2
          · exact Or.inl (List.mem_cons_of_mem p h2)
          · cases h2
            exact Or.inl (List.mem_cons_self p t)
        · intro q2 hq2
          cases hq2
          constructor
          · rw [Bool.eq_false_iff]
            intro hrq2
            have : semverLt r.2 p.2 = true := semverLt_trans hrq2 hqp
            rw [hrp] at this
            cases this
          · rcases hrq with hrq | hrq
            · rw [hrq]
              exact Or.inr hqp
            · exact Or.inr (semverLt_trans hqp hrq)
      · rw [Bool.not_eq_true] at hqp
        have hacc : pickMaxSemVer (some q) p = some q := by
          simp [pickMaxSemVer, hqp]
        rw [hacc] at ih2 ih3
        obtain ⟨hrq1, hrq2⟩ := ih3 q rfl
        refine ⟨?_, ?_, ?_⟩
        · intro x hx
          rcases List.mem_cons.mp hx with hx | hx
          · rw [hx]
            rcases hrq2 with hr | hr
            · rw [hr]
              exact hqp
            · rw [Bool.eq_false_iff]
              intro hrp
              have : semverLt q.2 p.2 = true := semverLt_trans hr hrp
              rw [hqp] at this
              cases this
          · exact ih1 x hx
        · rcases ih2 with h2 | h2
          · exact Or.inl (List.mem_cons_of_mem p h2)
          · cases h2
            exact Or.inr rfl
        · intro q2 hq2
          cases hq2
          exact ⟨hrq1, hrq2⟩

/-- C4: the "latest" pointer computed for `index-upsert` is the maximum of
the eligible versions under semantic-version order (numeric on
major.minor.patch, pre-release below its corresponding release), not
lexicographic string order; pre-release eligibility is the explicit
`includePre` configuration; and the order ranks `1.2.0` above `1.1.0-rc.1`
above `1.0.0`. -/
theorem c4_latest_semver (includePre : Bool) (vs : List String) :
    (∀ m, latestVersion includePre vs = some m →
      ∃ sv, (m, sv) ∈ eligibleSemVers includePre vs ∧
        ∀ p ∈ eligibleSemVers includePre vs, semverLt sv p.2 = false) ∧
    (∀ a b c t, semverLt ⟨a, b, c, some t⟩ ⟨a, b, c, none⟩ = true) ∧
    semverLt ⟨1, 0, 0, none⟩ ⟨1, 1, 0, some ['r', 'c', '.', '1']⟩ = true ∧
    semverLt ⟨1, 1, 0, some ['r', 'c', '.', '1']⟩ ⟨1, 2, 0, none⟩ = true ∧
    (semverLt ⟨1, 9, 0, none⟩ ⟨1, 10, 0, none⟩ = true ∧
      charListLt "1.10.0".toList "1.9.0".toList = true) ∧
    latestVersion true ["1.0.0", "1.2.0", "1.1.0-rc.1", "2.0.0-rc.1"] =
      some "2.0.0-rc.1" ∧
    latestVersion false ["1.0.0", "1.2.0", "1.1.0-rc.1", "2.0.0-rc.1"] =
      some "1.2.0" := by
  refine ⟨?_, ?_, by decide, by decide, ⟨by decide, by decide⟩, by decide, by decide⟩
  · intro m hm
    unfold latestVersion at hm
    cases hf : (eligibleSemVers includePre vs).foldl pickMaxSemVer none with
    | none => rw [hf] at hm; cases hm
    | some r =>
      rw [hf] at hm
      obtain ⟨h1, h2, _⟩ := foldl_pickMaxSemVer_spec _ none r hf
      rcases h2 with h2 | h2
      · cases hm
        exact ⟨r.2, h2, h1⟩
      · cases h2
  · intro a b c t
    rw [semverLt_iff]
    exact Or.inr ⟨rfl, Or.inr ⟨rfl, Or.inr ⟨rfl, rfl⟩⟩⟩

/-- Witness for C4 at a concrete version list, exercising the hypothesis. -/
theorem c4_witness :
    ∃ sv, ("1.2.0", sv) ∈
        eligibleSemVers false ["1.0.0", "1.2.0", "1.1.0-rc.1", "2.0.0-rc.1"] ∧
      ∀ p ∈ eligibleSemVers false ["1.0.0", "1.2.0", "1.1.0-rc.1", "2.0.0-rc.1"],
        semverLt sv p.2 = false :=
  (c4_latest_semver false ["1.0.0", "1.2.0", "1.1.0-rc.1", "2.0.0-rc.1"]).1
    "1.2.0" (by decide)

/-- Constraint checking succeeds exactly when every constraint holds. -/
theorem checkConstraints_eq_none_iff (cs : List Constraint) (p : Payload) :
    checkConstraints cs p = none ↔ ∀ c ∈ cs, constraintOk c p = true := by
  induction cs with
  | nil => simp [checkConstraints]
  | cons c rest ih =>
    by_cases hc : constraintOk c p = true
    · simp [checkConstraints, hc, ih]
    · rw [Bool.not_eq_true] at hc
      simp [checkConstraints, hc]

/-- Constraint checking reports exactly the first violated constraint in
declared order. -/
theorem checkConstraints_eq_some_iff (cs : List Constraint) (p : Payload)
    (e : ValidationError) :
    checkConstraints cs p = some e ↔
      ∃ c1 c c2, cs = c1 ++ c :: c2 ∧
        (∀ cx ∈ c1, constraintOk cx p = true) ∧
        constraintOk c p = false ∧
        e = constraintError c p := by
  induction cs with
  | nil =>
    simp only [checkConstraints]
    constructor
    · intro h
      cases h
    · rintro ⟨c1, c, c2, hcs, -, -, -⟩
      exact absurd hcs.symm (List.append_ne_nil_of_right_ne_nil c1 (List.cons_ne_nil c c2))
  | cons d rest ih =>
    by_cases hd : constraintOk d p = true
    · rw [checkConstraints, if_pos hd, ih]
      constructor
      · rintro ⟨c1, c, c2, hcs, hok, hfail, he⟩
        refine ⟨d :: c1, c, c2, by rw [hcs]; rfl, ?_, hfail, he⟩
        intro cx hx
        rcases List.mem_cons.mp hx with hx | hx
        · rw [hx]
          exact hd
        · exact hok cx hx
      · rintro ⟨c1, c, c2, hcs, hok, hfail, he⟩
        cases c1 with
        | nil =>
          simp only [List.nil_append, List.cons.injEq] at hcs
          rw [← hcs.1, hd] at hfail
          cases hfail
        | cons d2 c1t =>
          simp only [List.cons_append, List.cons.injEq] at hcs
          exact ⟨c1t, c, c2, hcs.2, fun cx hx => hok cx (List.mem_cons_of_mem d2 hx),
            hfail, he⟩
    · rw [Bool.not_eq_true] at hd
      rw [checkConstraints, if_neg (by simp [hd])]
      constructor
      · intro h
        cases h
        exact ⟨[], d, rest, rfl, by simp, hd, rfl⟩
      · rintro ⟨c1, c, c2, hcs, hok, hfail, he⟩
        cases c1 with
        | nil =>
          simp only [List.nil_append, List.cons.injEq] at hcs
          rw [he, hcs.1]
        | cons d2 c1t =>
          simp only [List.cons_append, List.cons.injEq] at hcs
          have hok2 := hok d2 (List.mem_cons_self d2 c1t)
          rw [← hcs.1, hd] at hok2
          cases hok2

/-- C7: `normalize` applies each field's normalization operations (in
declared order) to the payload before checking constraints, which are
evaluated against the fully normalized payload; validation is fail-fast,
reporting exactly the first violated constraint in declared order; a
`when_present` constraint is checked only when its field is present, while
one without `when_present` requires the field to be present and match. -/
theorem c7_normalize_spec (e : Entity) (p : Payload) :
    (∀ np, normalizeEntity e p = .ok np →
      np = normalizeFields e.fields p ∧
      ∀ c ∈ e.constraints, constraintOk c np = true) ∧
    (∀ err, normalizeEntity e p = .error err →
      ∃ c1 c c2, e.constraints = c1 ++ c :: c2 ∧
        (∀ cx ∈ c1, constraintOk cx (normalizeFields e.fields p) = true) ∧
        constraintOk c (normalizeFields e.fields p) = false ∧
        err = constraintError c (normalizeFields e.fields p)) ∧
    (∀ q f, payloadGet (normalizeField q f) f.name =
      (payloadGet q f.name).map
        (fun v => f.normalizations.foldl (fun s op => applyNormOp op s) v)) ∧
    (∀ c q, c.whenPresent = true → payloadGet q c.field = none →
      constraintOk c q = true) ∧
    (∀ c q, c.whenPresent = false →
      (constraintOk c q = true ↔
        ∃ v, payloadGet q c.field = some v ∧ c.pattern v = true)) := by
  refine ⟨?_, ?_, ?_, ?_, ?_⟩
  · intro np hok
    have hok2 : (match checkConstraints e.constraints (normalizeFields e.fields p) with
        | some err => (Except.error err : Except ValidationError Payload)
        | none => Except.ok (normalizeFields e.fields p)) = Except.ok np := hok
    cases hchk : checkConstraints e.constraints (normalizeFields e.fields p) with
    | some err =>
      rw [hchk] at hok2
      cases hok2
    | none =>
      rw [hchk] at hok2
      cases hok2
      exact ⟨rfl, (checkConstraints_eq_none_iff _ _).mp hchk⟩
  · intro err herr
    have herr2 : (match checkConstraints e.constraints (normalizeFields e.fields p) with
        | some err => (Except.error err : Except ValidationError Payload)
        | none => Except.ok (normalizeFields e.fields p)) = Except.error err := herr
    cases hchk : checkConstraints e.constraints (normalizeFields e.fields p) with
    | some err2 =>
      rw [hchk] at herr2
      cases herr2
      exact (checkConstraints_eq_some_iff _ _ _).mp hchk
    | none =>
      rw [hchk] at herr2
      cases herr2
  · intro q f
    unfold normalizeField
    cases hg : payloadGet q f.name with
    | none => simp [hg]
    | some v => simp [payloadSet, payloadGet]
  · intro c q hwp hg
    unfold constraintOk
    rw [hg, hwp]
  · intro c q hwp
    unfold constraintOk
    cases hg : payloadGet q c.field with
    | none => simp [hwp]
    | some v => simp

/-- Witness for C7 on the specification's own example: a `name` field with
normalizations `[trim, lowercase]` and an always-required pattern accepting
exactly `abc` accepts `" ABC "` and rejects `"abc1"` with the first (only)
violated constraint. -/
theorem c7_witness :
    ([("name", "abc"), ("name", " ABC ")] : Payload) =
      normalizeFields [⟨"name", false, [NormOp.trim, NormOp.lowercase]⟩]
        [("name", " ABC ")] ∧
    (∀ c ∈ [Constraint.mk "name" (fun s => s == "abc") false],
      constraintOk c [("name", "abc"), ("name", " ABC ")] = true) ∧
    (∃ c1 c c2,
      [Constraint.mk "name" (fun s => s == "abc") false] = c1 ++ c :: c2 ∧
      (∀ cx ∈ c1, constraintOk cx
        (normalizeFields [⟨"name", false, [NormOp.trim, NormOp.lowercase]⟩]
          [("name", "abc1")]) = true) ∧
      constraintOk c
        (normalizeFields [⟨"name", false, [NormOp.trim, NormOp.lowercase]⟩]
          [("name", "abc1")]) = false ∧
      ValidationError.mk "name" "pattern mismatch" = constraintError c
        (normalizeFields [⟨"name", false, [NormOp.trim, NormOp.lowercase]⟩]
          [("name", "abc1")])) := by
  have h1 := (c7_normalize_spec
      ⟨"package", [⟨"name", false, [NormOp.trim, NormOp.lowercase]⟩],
        [⟨"name", fun s => s == "abc", false⟩]⟩
      [("name", " ABC ")]).1
    [("name", "abc"), ("name", " ABC ")] (by rfl)
  have h2 := (c7_normalize_spec
      ⟨"package", [⟨"name", false, [NormOp.trim, NormOp.lowercase]⟩],
        [⟨"name", fun s => s == "abc", false⟩]⟩
      [("name", "abc1")]).2.1
    ⟨"name", "pattern mismatch"⟩ (by rfl)
  exact ⟨h1.1, h1.2, h2⟩

end GoodRepo
